import Mathlib

/- Shallow embedding of src/jerry-ext/handler/handler-register.c and of the
   constant-pool accessor declared in src/unnamed/part_000 (deserializer.h).

   jerry_value_t handles are modelled as Nat.  The runtime API used by the C
   file (jerry_string_sz, jerry_object_set / jerry_object_get /
   jerry_object_has, jerry_value_is_boolean, jerry_value_is_exception,
   jerry_value_is_true, jerry_undefined) is modelled as an abstract,
   deterministic record of functions.  Every jerry_value_free call performed by
   the embedded code is recorded in an output trace; each trace event is
   labelled with the loop iteration it belongs to and with the call site it
   comes from (transient property-name handle, entry value handle, or the
   result handle of the runtime call), so that ownership and release claims can
   be stated precisely, without assumptions about numeric handle aliasing. -/

structure JerryApi where
  string_sz : String → Nat
  object_set : Nat → Nat → Nat → Nat
  object_get : Nat → Nat → Nat
  object_has : Nat → Nat → Nat
  is_boolean : Nat → Bool
  is_exception : Nat → Bool
  is_true : Nat → Bool
  undefined : Nat

/-- One element of the entries array of jerryx_set_properties.  A C entry whose
name pointer is NULL (the sentinel terminator) is modelled with name = none. -/
structure jerryx_property_entry where
  name : Option String
  value : Nat
deriving DecidableEq, Repr

/-- The jerryx_register_result struct: the outcome handle and the number of
properties successfully registered. -/
structure jerryx_register_result where
  result : Nat
  registered : Nat
deriving DecidableEq, Repr

/-- A jerry_value_free call, labelled with the loop iteration (0 for the
single-property helpers) and the call site it comes from: freeing the
transient property-name handle, freeing an entry value handle, or freeing the
result handle of a runtime call.  The second argument is the handle freed. -/
inductive FreeEv where
  | nameH : Nat → Nat → FreeEv
  | valueH : Nat → Nat → FreeEv
  | resultH : Nat → Nat → FreeEv
deriving DecidableEq, Repr

/-- The iteration label of a free event. -/
def evIdx : FreeEv → Nat
  | .nameH i _ => i
  | .valueH i _ => i
  | .resultH i _ => i

/-- The for-loop of jerryx_set_properties, iterating from entries[idx].
For each entry with a non-NULL name: build the transient name handle with
jerry_string_sz, call jerry_object_set, free the name handle, then test
jerry_value_is_boolean on the set result.  If the result is not a boolean the
loop returns (result, idx) at once, without freeing the entry value or the
result; otherwise the entry value and the result are freed and the loop goes
on.  Reaching the sentinel returns (jerry_undefined(), idx).  The [] case is
only reachable for a table with no sentinel, which the C contract forbids. -/
def set_properties_loop (api : JerryApi) (target : Nat) :
    List jerryx_property_entry → Nat → jerryx_register_result × List FreeEv
  | [], idx => (⟨api.undefined, idx⟩, [])
  | ⟨none, _⟩ :: _, idx => (⟨api.undefined, idx⟩, [])
  | ⟨some n, v⟩ :: rest, idx =>
    if api.is_boolean (api.object_set target (api.string_sz n) v) then
      ((set_properties_loop api target rest (idx + 1)).1,
        .nameH idx (api.string_sz n) :: .valueH idx v ::
        .resultH idx (api.object_set target (api.string_sz n) v) ::
        (set_properties_loop api target rest (idx + 1)).2)
    else
      (⟨api.object_set target (api.string_sz n) v, idx⟩,
       [.nameH idx (api.string_sz n)])

/-- jerryx_set_properties.  A NULL entries pointer is modelled with none; it
returns (jerry_undefined(), 0) with an empty free trace. -/
def jerryx_set_properties (api : JerryApi) (target : Nat)
    (entries : Option (List jerryx_property_entry)) :
    jerryx_register_result × List FreeEv :=
  match entries with
  | none => (⟨api.undefined, 0⟩, [])
  | some l => set_properties_loop api target l 0

/-- The for-loop of jerryx_release_property_entry, iterating from index idx:
frees entries[idx].value while entries[idx].name is non-NULL. -/
def release_loop : Nat → List jerryx_property_entry → List FreeEv
  | _, [] => []
  | _, ⟨none, _⟩ :: _ => []
  | idx, ⟨some _, v⟩ :: rest => .valueH idx v :: release_loop (idx + 1) rest

/-- jerryx_release_property_entry: returns at once on a NULL entries pointer,
otherwise frees the value of every entry from index register_result.registered
up to (not including) the first NULL-name sentinel from there. -/
def jerryx_release_property_entry
    (entries : Option (List jerryx_property_entry))
    (register_result : jerryx_register_result) : List FreeEv :=
  match entries with
  | none => []
  | some l => release_loop register_result.registered (l.drop register_result.registered)

/-- jerryx_set_property_str: builds the transient name handle, calls
jerry_object_set, frees the name handle, returns the raw set result. -/
def jerryx_set_property_str (api : JerryApi) (target : Nat) (name : String)
    (value : Nat) : Nat × List FreeEv :=
  let property_name_val := api.string_sz name
  let result_val := api.object_set target property_name_val value
  (result_val, [.nameH 0 property_name_val])

/-- jerryx_get_property_str: builds the transient name handle, calls
jerry_object_get, frees the name handle, returns the raw get result. -/
def jerryx_get_property_str (api : JerryApi) (target : Nat) (name : String) :
    Nat × List FreeEv :=
  let prop_name := api.string_sz name
  let result_val := api.object_get target prop_name
  (result_val, [.nameH 0 prop_name])

/-- jerryx_has_property_str: builds the transient name handle, calls
jerry_object_has; when the result is not an exception the returned Bool is
jerry_value_is_true of it, otherwise false; frees the has result and then the
name handle. -/
def jerryx_has_property_str (api : JerryApi) (target : Nat) (name : String) :
    Bool × List FreeEv :=
  let prop_name := api.string_sz name
  let has_prop_val := api.object_has target prop_name
  let has_property :=
    if api.is_exception has_prop_val then false else api.is_true has_prop_val
  (has_property, [.resultH 0 has_prop_val, .nameH 0 prop_name])

/-- The transient name handle jerry_string_sz would build for an entry. -/
def entryNameHandle (api : JerryApi) (e : jerryx_property_entry) : Nat :=
  api.string_sz (e.name.getD "")

/-- The jerry_object_set result handle for an entry of the loop. -/
def entry_set_result (api : JerryApi) (target : Nat)
    (e : jerryx_property_entry) : Nat :=
  api.object_set target (entryNameHandle api e) e.value

/-- Whether the loop treats an entry as successfully registered: the sole test
is jerry_value_is_boolean on the jerry_object_set result. -/
def entryOk (api : JerryApi) (target : Nat) (e : jerryx_property_entry) : Bool :=
  api.is_boolean (entry_set_result api target e)

/-- The three frees one successful loop iteration performs, in order: the
transient name handle, the entry value handle, the set result handle. -/
def okTrace (api : JerryApi) (target : Nat) (idx : Nat)
    (e : jerryx_property_entry) : List FreeEv :=
  [.nameH idx (entryNameHandle api e),
   .valueH idx e.value,
   .resultH idx (entry_set_result api target e)]

/-- The free trace of a run of successful iterations starting at index idx. -/
def tracesFrom (api : JerryApi) (target : Nat) :
    Nat → List jerryx_property_entry → List FreeEv
  | _, [] => []
  | idx, e :: rest => okTrace api target idx e ++ tracesFrom api target (idx + 1) rest

/-- The free trace of the cleanup loop over a sentinel-free entry list starting
at index idx: one value free per entry, in order. -/
def valueTrace : Nat → List jerryx_property_entry → List FreeEv
  | _, [] => []
  | idx, e :: rest => .valueH idx e.value :: valueTrace (idx + 1) rest

/-- Number of loop iterations jerryx_set_properties attempts on a table:
every entry up to the sentinel while sets succeed, including the first failing
entry when one exists. -/
def attempts (api : JerryApi) (target : Nat) :
    List jerryx_property_entry → Nat
  | [] => 0
  | ⟨none, _⟩ :: _ => 0
  | ⟨some n, v⟩ :: rest =>
    if entryOk api target ⟨some n, v⟩ then attempts api target rest + 1 else 1

/-- Counts the occurrences of one free event in a trace. -/
def countOf (ev : FreeEv) : List FreeEv → Nat
  | [] => 0
  | x :: rest => (if x = ev then 1 else 0) + countOf ev rest

/-- The entry at index i of a table; past the end it yields the sentinel
shape, which no claim relies on. -/
def entryAt (l : List jerryx_property_entry) (i : Nat) : jerryx_property_entry :=
  l.getD i ⟨none, 0⟩

/-- The handle freed by a free event. -/
def evHandle : FreeEv → Nat
  | .nameH _ h => h
  | .valueH _ h => h
  | .resultH _ h => h

/-- Modelled from the spec: the constant pool of src/unnamed/part_000
(deserializer.h).  Only the declarations of deserializer_get_string_by_id,
deserializer_get_num_by_id and deserializer_get_bytecode are under src/; the
defining C file is missing.  The spec describes the pool as a static table of
literals populated once at build time from an offline literal-collection pass,
read-only for the whole process lifetime. -/
structure ConstantPool where
  strings : List String
  numbers : List Int

/-- Modelled from the spec: deserializer_get_string_by_id is a pure lookup of
the exact literal text recorded at build time in the statically embedded
string table; it is total for ids within the generated range (the C id type is
uint8_t).  Out-of-range ids are a caller contract violation, modelled as
none. -/
def deserializer_get_string_by_id (pool : ConstantPool) (id : Nat) :
    Option String :=
  pool.strings[id]?

/-- A concrete runtime instance used by the closed witness theorems.  Handle 1
is the boolean true value, handle 2 the boolean false value, handle 7 an
exception / error object, handle 0 undefined; name handles are 101, 102, 103;
jerry_object_set yields the error 7 for value 5, the boolean false 2 for value
6, the boolean true 1 otherwise. -/
def apiW : JerryApi where
  string_sz := fun s => if s = "a" then 101 else if s = "bb" then 102 else 103
  object_set := fun _ _ v => if v = 5 then 7 else if v = 6 then 2 else 1
  object_get := fun _ _ => 3
  object_has := fun _ n => if n = 101 then 7 else 1
  is_boolean := fun h => h = 1 || h = 2
  is_exception := fun h => h = 7
  is_true := fun h => h = 1
  undefined := 0

/-- Concrete table whose entry 1 (value 5) fails with error handle 7. -/
def tableFail : List jerryx_property_entry :=
  [⟨some "a", 10⟩, ⟨some "bb", 5⟩, ⟨some "ccc", 12⟩, ⟨none, 0⟩]

/-- Concrete one-entry table whose single set fails with error handle 7. -/
def tableOneFail : List jerryx_property_entry :=
  [⟨some "a", 5⟩, ⟨none, 0⟩]

/-- Indexing a table at its head. -/
theorem entryAt_cons_zero (e : jerryx_property_entry)
    (l : List jerryx_property_entry) : entryAt (e :: l) 0 = e := rfl

/-- Indexing a table past its head. -/
theorem entryAt_cons_succ (e : jerryx_property_entry)
    (l : List jerryx_property_entry) (j : Nat) :
    entryAt (e :: l) (j + 1) = entryAt l j := rfl

/-- Appending traces adds occurrence counts. -/
theorem countOf_append (ev : FreeEv) (l₁ l₂ : List FreeEv) :
    countOf ev (l₁ ++ l₂) = countOf ev l₁ + countOf ev l₂ := by
  induction l₁ with
  | nil => simp [countOf]
  | cons x rest ih => simp [countOf, ih]; omega

/-- A trace without the event counts it zero times. -/
theorem countOf_eq_zero (ev : FreeEv) (l : List FreeEv)
    (h : ∀ x ∈ l, x ≠ ev) : countOf ev l = 0 := by
  induction l with
  | nil => rfl
  | cons x rest ih =>
    have hx : x ≠ ev := h x (by simp)
    simp [countOf, hx]
    exact ih fun y hy => h y (by simp [hy])

/-- The registered count returned by the loop never drops below the start
index. -/
theorem loop_registered_ge (api : JerryApi) (target : Nat) :
    ∀ (l : List jerryx_property_entry) (idx : Nat),
      idx ≤ (set_properties_loop api target l idx).1.registered := by
  intro l
  induction l with
  | nil => intro idx; simp [set_properties_loop]
  | cons e rest ih =>
    intro idx
    obtain ⟨name, v⟩ := e
    cases name with
    | none => simp [set_properties_loop]
    | some n =>
      by_cases hb : api.is_boolean (api.object_set target (api.string_sz n) v)
      · simpa [set_properties_loop, hb] using
          Nat.le_trans (Nat.le_succ idx) (ih (idx + 1))
      · simp [set_properties_loop, hb]

/-- Every free event of the loop started at idx carries an iteration label of
at least idx. -/
theorem loop_trace_idx_ge (api : JerryApi) (target : Nat) :
    ∀ (l : List jerryx_property_entry) (idx : Nat) (ev : FreeEv),
      ev ∈ (set_properties_loop api target l idx).2 → idx ≤ evIdx ev := by
  intro l
  induction l with
  | nil => intro idx ev h; simp [set_properties_loop] at h
  | cons e rest ih =>
    intro idx ev h
    obtain ⟨name, v⟩ := e
    cases name with
    | none => simp [set_properties_loop] at h
    | some n =>
      by_cases hb : api.is_boolean (api.object_set target (api.string_sz n) v)
      · simp [set_properties_loop, hb] at h
        rcases h with h | h | h | h
        · subst h; simp [evIdx]
        · subst h; simp [evIdx]
        · subst h; simp [evIdx]
        · exact Nat.le_trans (Nat.le_succ idx) (ih (idx + 1) ev h)
      · simp [set_properties_loop, hb] at h
        subst h; simp [evIdx]

/-- The iteration labels of a successful-run trace started at idx lie in
[idx, idx + length). -/
theorem tracesFrom_idx_bound (api : JerryApi) (target : Nat) :
    ∀ (l : List jerryx_property_entry) (idx : Nat) (ev : FreeEv),
      ev ∈ tracesFrom api target idx l →
      idx ≤ evIdx ev ∧ evIdx ev < idx + l.length := by
  intro l
  induction l with
  | nil => intro idx ev h; simp [tracesFrom] at h
  | cons e rest ih =>
    intro idx ev h
    simp [tracesFrom, okTrace] at h
    rcases h with h | h | h | h
    · subst h; simp only [evIdx, List.length_cons]; omega
    · subst h; simp only [evIdx, List.length_cons]; omega
    · subst h; simp only [evIdx, List.length_cons]; omega
    · have := ih (idx + 1) ev h
      simp only [List.length_cons]
      omega

/-- The iteration labels of a cleanup trace started at idx lie in
[idx, idx + length). -/
theorem valueTrace_idx_bound :
    ∀ (l : List jerryx_property_entry) (idx : Nat) (ev : FreeEv),
      ev ∈ valueTrace idx l →
      idx ≤ evIdx ev ∧ evIdx ev < idx + l.length := by
  intro l
  induction l with
  | nil => intro idx ev h; simp [valueTrace] at h
  | cons e rest ih =>
    intro idx ev h
    simp [valueTrace] at h
    rcases h with h | h
    · subst h; simp only [evIdx, List.length_cons]; omega
    · have := ih (idx + 1) ev h
      simp only [List.length_cons]
      omega

/-- Every free event of one successful iteration carries that iteration's
label. -/
theorem okTrace_idx (api : JerryApi) (target : Nat) (idx : Nat)
    (e : jerryx_property_entry) (ev : FreeEv) (h : ev ∈ okTrace api target idx e) :
    evIdx ev = idx := by
  simp [okTrace] at h
  rcases h with h | h | h <;> subst h <;> simp [evIdx]

/-- In a successful-run trace, the value handle of the entry at offset i is
freed exactly once, under that entry's iteration label. -/
theorem tracesFrom_countOf_valueH (api : JerryApi) (target : Nat) :
    ∀ (l : List jerryx_property_entry) (idx i : Nat), i < l.length →
      countOf (FreeEv.valueH (idx + i) ((entryAt l i).value))
        (tracesFrom api target idx l) = 1 := by
  intro l
  induction l with
  | nil => intro idx i h; simp at h
  | cons e rest ih =>
    intro idx i h
    cases i with
    | zero =>
      have hz :
          countOf (FreeEv.valueH idx e.value)
            (tracesFrom api target (idx + 1) rest) = 0 := by
        apply countOf_eq_zero
        intro x hx heq
        have hb := (tracesFrom_idx_bound api target rest (idx + 1) x hx).1
        rw [heq] at hb
        simp only [evIdx] at hb
        omega
      simp [tracesFrom, countOf_append, okTrace, countOf, hz, entryAt_cons_zero]
    | succ j =>
      have h' : j < rest.length := by simpa using h
      have hz :
          countOf (FreeEv.valueH (idx + (j + 1)) ((entryAt rest j).value))
            (okTrace api target idx e) = 0 := by
        apply countOf_eq_zero
        intro x hx heq
        have hxi := okTrace_idx api target idx e x hx
        rw [heq] at hxi
        simp only [evIdx] at hxi
        omega
      have hrec := ih (idx + 1) j h'
      have harith : idx + 1 + j = idx + (j + 1) := by omega
      rw [harith] at hrec
      simp only [tracesFrom, countOf_append, entryAt_cons_succ]
      omega

/-- In a successful-run trace, the transient name handle of the entry at
offset i is freed exactly once, under that entry's iteration label. -/
theorem tracesFrom_countOf_nameH (api : JerryApi) (target : Nat) :
    ∀ (l : List jerryx_property_entry) (idx i : Nat), i < l.length →
      countOf (FreeEv.nameH (idx + i) (entryNameHandle api (entryAt l i)))
        (tracesFrom api target idx l) = 1 := by
  intro l
  induction l with
  | nil => intro idx i h; simp at h
  | cons e rest ih =>
    intro idx i h
    cases i with
    | zero =>
      have hz :
          countOf (FreeEv.nameH idx (entryNameHandle api e))
            (tracesFrom api target (idx + 1) rest) = 0 := by
        apply countOf_eq_zero
        intro x hx heq
        have hb := (tracesFrom_idx_bound api target rest (idx + 1) x hx).1
        rw [heq] at hb
        simp only [evIdx] at hb
        omega
      simp [tracesFrom, countOf_append, okTrace, countOf, hz, entryAt_cons_zero]
    | succ j =>
      have h' : j < rest.length := by simpa using h
      have hz :
          countOf (FreeEv.nameH (idx + (j + 1)) (entryNameHandle api (entryAt rest j)))
            (okTrace api target idx e) = 0 := by
        apply countOf_eq_zero
        intro x hx heq
        have hxi := okTrace_idx api target idx e x hx
        rw [heq] at hxi
        simp only [evIdx] at hxi
        omega
      have hrec := ih (idx + 1) j h'
      have harith : idx + 1 + j = idx + (j + 1) := by omega
      rw [harith] at hrec
      simp only [tracesFrom, countOf_append, entryAt_cons_succ]
      omega

/-- In a cleanup trace, the value handle of the entry at offset i is freed
exactly once, under that entry's index label. -/
theorem valueTrace_countOf :
    ∀ (l : List jerryx_property_entry) (idx i : Nat), i < l.length →
      countOf (FreeEv.valueH (idx + i) ((entryAt l i).value))
        (valueTrace idx l) = 1 := by
  intro l
  induction l with
  | nil => intro idx i h; simp at h
  | cons e rest ih =>
    intro idx i h
    cases i with
    | zero =>
      have hz :
          countOf (FreeEv.valueH idx e.value) (valueTrace (idx + 1) rest) = 0 := by
        apply countOf_eq_zero
        intro x hx heq
        have hb := (valueTrace_idx_bound rest (idx + 1) x hx).1
        rw [heq] at hb
        simp only [evIdx] at hb
        omega
      simp [valueTrace, countOf, hz, entryAt_cons_zero]
    | succ j =>
      have h' : j < rest.length := by simpa using h
      have hrec := ih (idx + 1) j h'
      have harith : idx + 1 + j = idx + (j + 1) := by omega
      rw [harith] at hrec
      have hne : FreeEv.valueH idx e.value ≠
          FreeEv.valueH (idx + (j + 1)) ((entryAt rest j).value) := by
        intro heq
        have := congrArg evIdx heq
        simp only [evIdx] at this
        omega
      simp only [valueTrace, countOf, entryAt_cons_succ]
      rw [if_neg hne, hrec]

/-- Unrolling the loop over a block of entries that all have a name and all
set successfully: the loop runs the whole block, frees name, value and result
of each of its entries in order, and continues on the remainder of the table
with the index advanced by the block length. -/
theorem loop_append_ok (api : JerryApi) (target : Nat) :
    ∀ (pre t : List jerryx_property_entry) (idx : Nat),
      (∀ e ∈ pre, e.name.isSome = true ∧ entryOk api target e = true) →
      set_properties_loop api target (pre ++ t) idx =
        ((set_properties_loop api target t (idx + pre.length)).1,
         tracesFrom api target idx pre ++
           (set_properties_loop api target t (idx + pre.length)).2) := by
  intro pre
  induction pre with
  | nil => intro t idx h; simp [tracesFrom]
  | cons e pre' ih =>
    intro t idx h
    obtain ⟨hes, heo⟩ := h e (by simp)
    obtain ⟨name, v⟩ := e
    cases name with
    | none => simp at hes
    | some n =>
      have hb : api.is_boolean (api.object_set target (api.string_sz n) v) = true := by
        simpa [entryOk, entry_set_result, entryNameHandle] using heo
      have ih' := ih t (idx + 1) (fun e he => h e (by simp [he]))
      have harith : idx + 1 + pre'.length = idx + (pre'.length + 1) := by omega
      rw [harith] at ih'
      simp [set_properties_loop, hb, tracesFrom, okTrace, ih',
            entryNameHandle, entry_set_result]

/-- A run over a block of all-successful entries followed by the sentinel:
the loop registers the whole block and returns jerry_undefined. -/
theorem loop_all_ok (api : JerryApi) (target : Nat)
    (pre t : List jerryx_property_entry) (v0 idx : Nat)
    (h : ∀ e ∈ pre, e.name.isSome = true ∧ entryOk api target e = true) :
    set_properties_loop api target (pre ++ ⟨none, v0⟩ :: t) idx =
      (⟨api.undefined, idx + pre.length⟩, tracesFrom api target idx pre) := by
  rw [loop_append_ok api target pre (⟨none, v0⟩ :: t) idx h]
  simp [set_properties_loop]

/-- A run over a block of all-successful entries followed by a named entry
whose set result is not a boolean: the loop stops there, returns that result
with the failing index, and past the block frees only that entry's transient
name handle. -/
theorem loop_first_fail (api : JerryApi) (target : Nat)
    (pre t : List jerryx_property_entry) (n : String) (v idx : Nat)
    (hpre : ∀ e ∈ pre, e.name.isSome = true ∧ entryOk api target e = true)
    (hbad : entryOk api target ⟨some n, v⟩ = false) :
    set_properties_loop api target (pre ++ ⟨some n, v⟩ :: t) idx =
      (⟨entry_set_result api target ⟨some n, v⟩, idx + pre.length⟩,
       tracesFrom api target idx pre ++
         [FreeEv.nameH (idx + pre.length) (api.string_sz n)]) := by
  rw [loop_append_ok api target pre (⟨some n, v⟩ :: t) idx hpre]
  have hb : api.is_boolean (api.object_set target (api.string_sz n) v) = false := by
    simpa [entryOk, entry_set_result, entryNameHandle] using hbad
  simp [set_properties_loop, hb, entry_set_result, entryNameHandle]

/-- The cleanup loop over a block of named entries followed by the sentinel
frees exactly the values of the block, in order, and never looks past the
sentinel. -/
theorem release_loop_append (v0 : Nat) :
    ∀ (xs t : List jerryx_property_entry) (idx : Nat),
      (∀ e ∈ xs, e.name.isSome = true) →
      release_loop idx (xs ++ ⟨none, v0⟩ :: t) = valueTrace idx xs := by
  intro xs
  induction xs with
  | nil => intro t idx _; simp [release_loop, valueTrace]
  | cons e xs' ih =>
    intro t idx h
    have hes := h e (by simp)
    obtain ⟨name, v⟩ := e
    cases name with
    | none => simp at hes
    | some n =>
      simp [release_loop, valueTrace, ih t (idx + 1) (fun e he => h e (by simp [he]))]

/-- The registered count returned on a sentinel-terminated table never exceeds
the index of the sentinel. -/
theorem loop_registered_le (api : JerryApi) (target : Nat) (v0 : Nat) :
    ∀ (pre t : List jerryx_property_entry) (idx : Nat),
      (set_properties_loop api target (pre ++ ⟨none, v0⟩ :: t) idx).1.registered ≤
        idx + pre.length := by
  intro pre
  induction pre with
  | nil => intro t idx; simp [set_properties_loop]
  | cons e pre' ih =>
    intro t idx
    obtain ⟨name, v⟩ := e
    cases name with
    | none => simp [set_properties_loop]
    | some n =>
      by_cases hb : api.is_boolean (api.object_set target (api.string_sz n) v)
      · have := ih t (idx + 1)
        simp only [List.cons_append, set_properties_loop, hb, if_true,
          List.length_cons, List.append_eq]
        omega
      · simp [set_properties_loop, hb]

/-- Dropping r entries of an appended table, r within the first part. -/
theorem drop_append_le :
    ∀ (pre t : List jerryx_property_entry) (r : Nat), r ≤ pre.length →
      (pre ++ t).drop r = pre.drop r ++ t := by
  intro pre
  induction pre with
  | nil =>
    intro t r h
    simp at h
    subst h
    simp
  | cons e pre' ih =>
    intro t r h
    cases r with
    | zero => simp
    | succ r' => simpa using ih t r' (by simpa using h)

/-- Members of a dropped list are members of the list. -/
theorem mem_of_drop :
    ∀ (l : List jerryx_property_entry) (r : Nat) (e : jerryx_property_entry),
      e ∈ l.drop r → e ∈ l := by
  intro l
  induction l with
  | nil => intro r e h; simp at h
  | cons x l' ih =>
    intro r e h
    cases r with
    | zero => simpa using h
    | succ r' =>
      simp only [List.drop_succ_cons] at h
      exact List.mem_cons_of_mem x (ih r' e h)

/-- Indexing into a dropped table. -/
theorem entryAt_drop :
    ∀ (l : List jerryx_property_entry) (r m : Nat),
      entryAt (l.drop r) m = entryAt l (r + m) := by
  intro l
  induction l with
  | nil => intro r m; simp [entryAt]
  | cons e l' ih =>
    intro r m
    cases r with
    | zero => simp
    | succ r' =>
      simp only [List.drop_succ_cons]
      rw [ih r' m]
      have harith : r' + 1 + m = (r' + m) + 1 := by omega
      rw [harith, entryAt_cons_succ]

/-- In any run of the registration loop, each attempted iteration —
a successful one or the single failing one — frees the transient name handle
it built exactly once. -/
theorem loop_countOf_nameH (api : JerryApi) (target : Nat) :
    ∀ (l : List jerryx_property_entry) (idx i : Nat), i < attempts api target l →
      countOf (FreeEv.nameH (idx + i) (entryNameHandle api (entryAt l i)))
        (set_properties_loop api target l idx).2 = 1 := by
  intro l
  induction l with
  | nil => intro idx i h; simp [attempts] at h
  | cons e rest ih =>
    intro idx i h
    obtain ⟨name, v⟩ := e
    cases name with
    | none => simp [attempts] at h
    | some n =>
      by_cases hb : entryOk api target ⟨some n, v⟩ = true
      · have hb' : api.is_boolean (api.object_set target (api.string_sz n) v) = true := by
          simpa [entryOk, entry_set_result, entryNameHandle] using hb
        cases i with
        | zero =>
          have hz : countOf (FreeEv.nameH idx (api.string_sz n))
              (set_properties_loop api target rest (idx + 1)).2 = 0 := by
            apply countOf_eq_zero
            intro x hx heq
            have hge := loop_trace_idx_ge api target rest (idx + 1) x hx
            rw [heq] at hge
            simp only [evIdx] at hge
            omega
          simp [set_properties_loop, hb', countOf, entryNameHandle,
            entryAt_cons_zero, hz]
        | succ j =>
          have hAtt : attempts api target (⟨some n, v⟩ :: rest) =
              attempts api target rest + 1 := by
            simp [attempts, hb]
          have hj : j < attempts api target rest := by omega
          have hrec := ih (idx + 1) j hj
          have harith : idx + 1 + j = idx + (j + 1) := by omega
          rw [harith] at hrec
          have hne1 : FreeEv.nameH idx (api.string_sz n) ≠
              FreeEv.nameH (idx + (j + 1)) (entryNameHandle api (entryAt rest j)) := by
            intro heq
            have := congrArg evIdx heq
            simp only [evIdx] at this
            omega
          rw [entryAt_cons_succ]
          simp only [set_properties_loop, hb', if_true, countOf]
          rw [if_neg hne1,
              if_neg (fun heq => FreeEv.noConfusion heq),
              if_neg (fun heq => FreeEv.noConfusion heq),
              hrec]
      · have hb0 : entryOk api target ⟨some n, v⟩ = false := by
          simpa [Bool.not_eq_true] using hb
        have hb' : api.is_boolean (api.object_set target (api.string_sz n) v) = false := by
          simpa [entryOk, entry_set_result, entryNameHandle] using hb0
        have hAtt : attempts api target (⟨some n, v⟩ :: rest) = 1 := by
          simp [attempts, hb0]
        have hi : i = 0 := by omega
        subst hi
        simp [set_properties_loop, hb', countOf, entryNameHandle, entryAt_cons_zero]

/-- Claim C1: on a sentinel-terminated table whose entries before index k all
set successfully and whose entry k (here the head of the second block, with
k = pre.length) yields a non-boolean jerry_object_set result,
jerryx_set_properties stops the loop at entry k: it returns exactly that
non-boolean result handle as the outcome with registered = k, its free trace
is the per-iteration frees of entries 0..k-1 followed by only the transient
name free of iteration k (so no later entry is attempted), and no value
handle of any entry at index at least k is freed by the protocol. -/
theorem C1_stops_at_first_nonboolean (api : JerryApi) (target : Nat)
    (pre t : List jerryx_property_entry) (n : String) (v : Nat)
    (hpre : ∀ e ∈ pre, e.name.isSome = true ∧ entryOk api target e = true)
    (hbad : entryOk api target ⟨some n, v⟩ = false)
    (_hsent : (t.any fun e => e.name.isNone) = true) :
    jerryx_set_properties api target (some (pre ++ ⟨some n, v⟩ :: t)) =
      (⟨entry_set_result api target ⟨some n, v⟩, pre.length⟩,
       tracesFrom api target 0 pre ++
         [FreeEv.nameH pre.length (api.string_sz n)]) ∧
    ∀ j h, pre.length ≤ j →
      FreeEv.valueH j h ∉
        (jerryx_set_properties api target (some (pre ++ ⟨some n, v⟩ :: t))).2 := by
  have heq : jerryx_set_properties api target (some (pre ++ ⟨some n, v⟩ :: t)) =
      (⟨entry_set_result api target ⟨some n, v⟩, pre.length⟩,
       tracesFrom api target 0 pre ++
         [FreeEv.nameH pre.length (api.string_sz n)]) := by
    simpa [jerryx_set_properties] using
      loop_first_fail api target pre t n v 0 hpre hbad
  refine ⟨heq, ?_⟩
  intro j h hj hmem
  rw [heq] at hmem
  simp only [List.mem_append, List.mem_singleton] at hmem
  rcases hmem with hmem | hmem
  · have hub := (tracesFrom_idx_bound api target pre 0 _ hmem).2
    simp only [evIdx] at hub
    omega
  · exact FreeEv.noConfusion hmem

/-- Closed witness for Claim C1: a concrete run over apiW where entry 1 fails
with error handle 7; entry 2 is never attempted and the value handles 5 and
12 of entries 1 and 2 stay unreleased. -/
theorem C1_stops_at_first_nonboolean_witness :
    jerryx_set_properties apiW 0
        (some ([⟨some "a", 10⟩] ++ ⟨some "bb", 5⟩ :: [⟨some "ccc", 12⟩, ⟨none, 0⟩])) =
      (⟨entry_set_result apiW 0 ⟨some "bb", 5⟩, 1⟩,
       tracesFrom apiW 0 0 [⟨some "a", 10⟩] ++ [FreeEv.nameH 1 (apiW.string_sz "bb")]) ∧
    FreeEv.valueH 1 5 ∉
      (jerryx_set_properties apiW 0
        (some ([⟨some "a", 10⟩] ++ ⟨some "bb", 5⟩ :: [⟨some "ccc", 12⟩, ⟨none, 0⟩]))).2 ∧
    FreeEv.valueH 2 12 ∉
      (jerryx_set_properties apiW 0
        (some ([⟨some "a", 10⟩] ++ ⟨some "bb", 5⟩ :: [⟨some "ccc", 12⟩, ⟨none, 0⟩]))).2 := by
  have h := C1_stops_at_first_nonboolean apiW 0 [⟨some "a", 10⟩]
      [⟨some "ccc", 12⟩, ⟨none, 0⟩] "bb" 5 (by decide) (by decide) (by decide)
  exact ⟨h.1, h.2 1 5 (by decide), h.2 2 12 (by decide)⟩

/-- Claim C2: on a non-null sentinel-terminated table all of whose entries set
to a boolean result, jerryx_set_properties registers every entry before the
sentinel and returns jerry_undefined as the outcome; its free trace is
exactly the per-iteration frees of all those entries, and each entry's value
handle is freed exactly once. -/
theorem C2_full_success (api : JerryApi) (target : Nat)
    (pre t : List jerryx_property_entry) (v0 : Nat)
    (hpre : ∀ e ∈ pre, e.name.isSome = true ∧ entryOk api target e = true) :
    jerryx_set_properties api target (some (pre ++ ⟨none, v0⟩ :: t)) =
      (⟨api.undefined, pre.length⟩, tracesFrom api target 0 pre) ∧
    ∀ i, i < pre.length →
      countOf (FreeEv.valueH i ((entryAt pre i).value))
        (jerryx_set_properties api target (some (pre ++ ⟨none, v0⟩ :: t))).2 = 1 := by
  have heq : jerryx_set_properties api target (some (pre ++ ⟨none, v0⟩ :: t)) =
      (⟨api.undefined, pre.length⟩, tracesFrom api target 0 pre) := by
    simpa [jerryx_set_properties] using loop_all_ok api target pre t v0 0 hpre
  refine ⟨heq, ?_⟩
  intro i hi
  rw [heq]
  simpa using tracesFrom_countOf_valueH api target pre 0 i hi

/-- Closed witness for Claim C2: a concrete all-successful run over apiW
registering both entries, freeing each value handle exactly once. -/
theorem C2_full_success_witness :
    jerryx_set_properties apiW 0
        (some ([⟨some "a", 10⟩, ⟨some "bb", 11⟩] ++ ⟨none, 0⟩ :: [])) =
      (⟨apiW.undefined, 2⟩, tracesFrom apiW 0 0 [⟨some "a", 10⟩, ⟨some "bb", 11⟩]) ∧
    countOf (FreeEv.valueH 0 10)
      (jerryx_set_properties apiW 0
        (some ([⟨some "a", 10⟩, ⟨some "bb", 11⟩] ++ ⟨none, 0⟩ :: []))).2 = 1 ∧
    countOf (FreeEv.valueH 1 11)
      (jerryx_set_properties apiW 0
        (some ([⟨some "a", 10⟩, ⟨some "bb", 11⟩] ++ ⟨none, 0⟩ :: []))).2 = 1 := by
  have h := C2_full_success apiW 0 [⟨some "a", 10⟩, ⟨some "bb", 11⟩] [] 0 (by decide)
  exact ⟨h.1, h.2 0 (by decide), h.2 1 (by decide)⟩

/-- Claim C3: for a non-null sentinel-terminated table and the registration
result actually returned for it, jerryx_release_property_entry frees exactly
the value handles of the entries from index result.registered up to (not
including) the sentinel, once each; it frees nothing at indices below
result.registered, and after a fully successful registration (registered
equal to the table length) it frees nothing at all. -/
theorem C3_release_frees_exact_tail (api : JerryApi) (target : Nat)
    (pre t : List jerryx_property_entry) (v0 : Nat) (res : jerryx_register_result)
    (hpre : ∀ e ∈ pre, e.name.isSome = true)
    (hres : res = (jerryx_set_properties api target (some (pre ++ ⟨none, v0⟩ :: t))).1) :
    jerryx_release_property_entry (some (pre ++ ⟨none, v0⟩ :: t)) res =
      valueTrace res.registered (pre.drop res.registered) ∧
    (∀ j h, j < res.registered →
      FreeEv.valueH j h ∉
        jerryx_release_property_entry (some (pre ++ ⟨none, v0⟩ :: t)) res) ∧
    (∀ i, res.registered ≤ i → i < pre.length →
      countOf (FreeEv.valueH i ((entryAt pre i).value))
        (jerryx_release_property_entry (some (pre ++ ⟨none, v0⟩ :: t)) res) = 1) ∧
    (res.registered = pre.length →
      jerryx_release_property_entry (some (pre ++ ⟨none, v0⟩ :: t)) res = []) := by
  have hr : res.registered ≤ pre.length := by
    rw [hres]
    simpa [jerryx_set_properties] using loop_registered_le api target v0 pre t 0
  have hdrop : (pre ++ ⟨none, v0⟩ :: t).drop res.registered =
      pre.drop res.registered ++ ⟨none, v0⟩ :: t := drop_append_le pre _ _ hr
  have hall : ∀ e ∈ pre.drop res.registered, e.name.isSome = true :=
    fun e he => hpre e (mem_of_drop pre res.registered e he)
  have heq : jerryx_release_property_entry (some (pre ++ ⟨none, v0⟩ :: t)) res =
      valueTrace res.registered (pre.drop res.registered) := by
    simp only [jerryx_release_property_entry, hdrop]
    exact release_loop_append v0 (pre.drop res.registered) t res.registered hall
  refine ⟨heq, ?_, ?_, ?_⟩
  · intro j h hj hmem
    rw [heq] at hmem
    have hlb := (valueTrace_idx_bound (pre.drop res.registered) res.registered _ hmem).1
    simp only [evIdx] at hlb
    omega
  · intro i hri hip
    rw [heq]
    have hm : i - res.registered < (pre.drop res.registered).length := by
      simp only [List.length_drop]
      omega
    have hc := valueTrace_countOf (pre.drop res.registered) res.registered
        (i - res.registered) hm
    rw [entryAt_drop] at hc
    have harith : res.registered + (i - res.registered) = i := by omega
    rw [harith] at hc
    exact hc
  · intro hfull
    rw [heq, hfull, List.drop_length]
    rfl

/-- Closed witness for Claim C3: a concrete failed run over apiW with
registered = 1 on a three-entry table; cleanup frees exactly the value
handles of entries 1 and 2, once each, and not the one of entry 0. -/
theorem C3_release_frees_exact_tail_witness :
    jerryx_release_property_entry
        (some ([⟨some "a", 10⟩, ⟨some "bb", 5⟩, ⟨some "ccc", 12⟩] ++ ⟨none, 0⟩ :: []))
        ⟨7, 1⟩ =
      valueTrace 1 ([⟨some "a", 10⟩, ⟨some "bb", 5⟩, ⟨some "ccc", 12⟩].drop 1) ∧
    FreeEv.valueH 0 10 ∉
      jerryx_release_property_entry
        (some ([⟨some "a", 10⟩, ⟨some "bb", 5⟩, ⟨some "ccc", 12⟩] ++ ⟨none, 0⟩ :: []))
        ⟨7, 1⟩ ∧
    countOf (FreeEv.valueH 1 5)
      (jerryx_release_property_entry
        (some ([⟨some "a", 10⟩, ⟨some "bb", 5⟩, ⟨some "ccc", 12⟩] ++ ⟨none, 0⟩ :: []))
        ⟨7, 1⟩) = 1 ∧
    countOf (FreeEv.valueH 2 12)
      (jerryx_release_property_entry
        (some ([⟨some "a", 10⟩, ⟨some "bb", 5⟩, ⟨some "ccc", 12⟩] ++ ⟨none, 0⟩ :: []))
        ⟨7, 1⟩) = 1 ∧
    jerryx_release_property_entry
        (some ([⟨some "a", 10⟩, ⟨some "bb", 11⟩] ++ ⟨none, 0⟩ :: [])) ⟨0, 2⟩ = [] := by
  have h := C3_release_frees_exact_tail apiW 0
      [⟨some "a", 10⟩, ⟨some "bb", 5⟩, ⟨some "ccc", 12⟩] [] 0 ⟨7, 1⟩
      (by decide) (by decide)
  have hfull := C3_release_frees_exact_tail apiW 0
      [⟨some "a", 10⟩, ⟨some "bb", 11⟩] [] 0 ⟨0, 2⟩ (by decide) (by decide)
  exact ⟨h.1, h.2.1 0 10 (by decide), h.2.2.1 1 (by decide) (by decide),
         h.2.2.1 2 (by decide) (by decide), hfull.2.2.2 (by decide)⟩

/-- Claim C4 counterexample: on the concrete runtime apiW and the one-entry
table whose set fails with error handle 7, jerryx_set_properties returns 7 as
the outcome and its whole free trace is the single transient-name free: no
jerry_value_free call of the run touches the failed set's result handle 7, so
that handle is NOT released internally by the protocol, contrary to the
claim's first half. -/
theorem C4_counterexample :
    (jerryx_set_properties apiW 0 (some tableOneFail)).1.result = 7 ∧
    (jerryx_set_properties apiW 0 (some tableOneFail)).2 = [FreeEv.nameH 0 101] ∧
    ¬ ∃ ev ∈ (jerryx_set_properties apiW 0 (some tableOneFail)).2,
        evHandle ev = 7 := by decide

/-- Claim C4 (amended): when jerryx_set_properties stops at a failing entry,
the failing set's result handle is not released internally: it is returned
verbatim as the outcome, whose ownership (and duty to release) passes to the
caller; and the entry's original value handle is not released either and
remains owned by the caller. -/
theorem C4_failed_result_returned_not_freed (api : JerryApi) (target : Nat)
    (pre t : List jerryx_property_entry) (n : String) (v : Nat)
    (hpre : ∀ e ∈ pre, e.name.isSome = true ∧ entryOk api target e = true)
    (hbad : entryOk api target ⟨some n, v⟩ = false) :
    (jerryx_set_properties api target (some (pre ++ ⟨some n, v⟩ :: t))).1.result =
      entry_set_result api target ⟨some n, v⟩ ∧
    (∀ h, FreeEv.resultH pre.length h ∉
      (jerryx_set_properties api target (some (pre ++ ⟨some n, v⟩ :: t))).2) ∧
    (∀ j h, pre.length ≤ j →
      FreeEv.valueH j h ∉
        (jerryx_set_properties api target (some (pre ++ ⟨some n, v⟩ :: t))).2) := by
  have heq : jerryx_set_properties api target (some (pre ++ ⟨some n, v⟩ :: t)) =
      (⟨entry_set_result api target ⟨some n, v⟩, pre.length⟩,
       tracesFrom api target 0 pre ++
         [FreeEv.nameH pre.length (api.string_sz n)]) := by
    simpa [jerryx_set_properties] using
      loop_first_fail api target pre t n v 0 hpre hbad
  refine ⟨by rw [heq], ?_, ?_⟩
  · intro h hmem
    rw [heq] at hmem
    simp only [List.mem_append, List.mem_singleton] at hmem
    rcases hmem with hmem | hmem
    · have hub := (tracesFrom_idx_bound api target pre 0 _ hmem).2
      simp only [evIdx] at hub
      omega
    · exact FreeEv.noConfusion hmem
  · intro j h hj hmem
    rw [heq] at hmem
    simp only [List.mem_append, List.mem_singleton] at hmem
    rcases hmem with hmem | hmem
    · have hub := (tracesFrom_idx_bound api target pre 0 _ hmem).2
      simp only [evIdx] at hub
      omega
    · exact FreeEv.noConfusion hmem

/-- Closed witness for the amended Claim C4 on a concrete failing run. -/
theorem C4_failed_result_returned_not_freed_witness :
    (jerryx_set_properties apiW 0 (some ([] ++ ⟨some "a", 5⟩ :: [⟨none, 0⟩]))).1.result =
      entry_set_result apiW 0 ⟨some "a", 5⟩ ∧
    FreeEv.resultH 0 7 ∉
      (jerryx_set_properties apiW 0 (some ([] ++ ⟨some "a", 5⟩ :: [⟨none, 0⟩]))).2 ∧
    FreeEv.valueH 0 5 ∉
      (jerryx_set_properties apiW 0 (some ([] ++ ⟨some "a", 5⟩ :: [⟨none, 0⟩]))).2 := by
  have h := C4_failed_result_returned_not_freed apiW 0 [] [⟨none, 0⟩] "a" 5
      (by decide) (by decide)
  exact ⟨h.1, h.2.1 7, h.2.2 0 5 (by decide)⟩

/-- Claim C5: a NULL entry table is a valid nothing-to-do case for both
operations: jerryx_set_properties returns (jerry_undefined(), 0) with an
empty free trace — no loop iteration runs, so no property set is issued and
nothing is released — and jerryx_release_property_entry returns without
freeing anything, whatever registration result it is given. -/
theorem C5_null_table_noop (api : JerryApi) (target : Nat)
    (res : jerryx_register_result) :
    jerryx_set_properties api target none = (⟨api.undefined, 0⟩, []) ∧
    jerryx_release_property_entry none res = [] :=
  ⟨rfl, rfl⟩

/-- Claim C6: jerryx_has_property_str returns true exactly when the
jerry_object_has result is no exception and is the boolean true value; any
exception during the check collapses to false, indistinguishable from a
missing property. -/
theorem C6_has_collapses_errors (api : JerryApi) (target : Nat) (name : String) :
    ((jerryx_has_property_str api target name).1 = true ↔
      (api.is_exception (api.object_has target (api.string_sz name)) = false ∧
       api.is_true (api.object_has target (api.string_sz name)) = true)) ∧
    (api.is_exception (api.object_has target (api.string_sz name)) = true →
      (jerryx_has_property_str api target name).1 = false) := by
  by_cases hex : api.is_exception (api.object_has target (api.string_sz name)) = true
  · exact ⟨by simp [jerryx_has_property_str, hex], fun _ => by
      simp [jerryx_has_property_str, hex]⟩
  · have hex0 : api.is_exception (api.object_has target (api.string_sz name)) = false := by
      simpa [Bool.not_eq_true] using hex
    refine ⟨by simp [jerryx_has_property_str, hex0], fun hcon => ?_⟩
    rw [hex0] at hcon
    exact Bool.noConfusion hcon

/-- Closed witness for Claim C6: on apiW the existence check for name "a"
yields the exception handle 7 and the helper collapses it to false; for the
name "bb" it yields the true handle 1 and the helper returns true. -/
theorem C6_has_collapses_errors_witness :
    (jerryx_has_property_str apiW 0 "a").1 = false ∧
    (jerryx_has_property_str apiW 0 "bb").1 = true := by
  refine ⟨(C6_has_collapses_errors apiW 0 "a").2 (by decide), ?_⟩
  exact (C6_has_collapses_errors apiW 0 "bb").1.mpr (by decide)

/-- Claim C7: every transient name handle built from a name string by
jerry_string_sz is freed exactly once on every control path: each attempted
iteration of jerryx_set_properties (a successful one or the failing one)
frees the name handle it built exactly once, and jerryx_set_property_str,
jerryx_get_property_str and jerryx_has_property_str each free their single
transient name handle exactly once, whatever the runtime call results are. -/
theorem C7_transient_name_freed_once (api : JerryApi) (target : Nat)
    (l : List jerryx_property_entry) (name : String) (v i : Nat)
    (hi : i < attempts api target l) :
    countOf (FreeEv.nameH i (entryNameHandle api (entryAt l i)))
      (jerryx_set_properties api target (some l)).2 = 1 ∧
    countOf (FreeEv.nameH 0 (api.string_sz name))
      (jerryx_set_property_str api target name v).2 = 1 ∧
    countOf (FreeEv.nameH 0 (api.string_sz name))
      (jerryx_get_property_str api target name).2 = 1 ∧
    countOf (FreeEv.nameH 0 (api.string_sz name))
      (jerryx_has_property_str api target name).2 = 1 := by
  refine ⟨?_, ?_, ?_, ?_⟩
  · simpa [jerryx_set_properties] using loop_countOf_nameH api target l 0 i hi
  · simp [jerryx_set_property_str, countOf]
  · simp [jerryx_get_property_str, countOf]
  · simp [jerryx_has_property_str, countOf]

/-- Closed witness for Claim C7, instantiated at the failing iteration 1 of a
concrete run (its name handle 102 is freed exactly once) and at the three
single-property helpers. -/
theorem C7_transient_name_freed_once_witness :
    countOf (FreeEv.nameH 1 (entryNameHandle apiW (entryAt tableFail 1)))
      (jerryx_set_properties apiW 0 (some tableFail)).2 = 1 ∧
    countOf (FreeEv.nameH 0 (apiW.string_sz "bb"))
      (jerryx_set_property_str apiW 0 "bb" 3).2 = 1 ∧
    countOf (FreeEv.nameH 0 (apiW.string_sz "bb"))
      (jerryx_get_property_str apiW 0 "bb").2 = 1 ∧
    countOf (FreeEv.nameH 0 (apiW.string_sz "bb"))
      (jerryx_has_property_str apiW 0 "bb").2 = 1 :=
  C7_transient_name_freed_once apiW 0 tableFail "bb" 3 1 (by decide)

/-- The registration loop never recurses past the first sentinel: its whole
output is the same for any two continuations of the table after it. -/
theorem loop_tail_irrelevant (api : JerryApi) (target : Nat) (v0 : Nat) :
    ∀ (pre t t' : List jerryx_property_entry) (idx : Nat),
      set_properties_loop api target (pre ++ ⟨none, v0⟩ :: t) idx =
        set_properties_loop api target (pre ++ ⟨none, v0⟩ :: t') idx := by
  intro pre
  induction pre with
  | nil => intro t t' idx; simp [set_properties_loop]
  | cons e pre' ih =>
    intro t t' idx
    obtain ⟨name, v⟩ := e
    cases name with
    | none => simp [set_properties_loop]
    | some n =>
      by_cases hb : api.is_boolean (api.object_set target (api.string_sz n) v)
      · simp [set_properties_loop, hb, ih t t' (idx + 1)]
      · simp [set_properties_loop, hb]

/-- Claim C8: with the first null-name sentinel at index s = pre.length, both
jerryx_set_properties and jerryx_release_property_entry read only entries at
indices up to s: their outputs are identical for any two continuations of the
table past the sentinel.  The cleanup is considered with the registration
result actually returned for the table, whose registered count never exceeds
s. -/
theorem C8_never_reads_past_sentinel (api : JerryApi) (target : Nat)
    (pre t t' : List jerryx_property_entry) (v0 : Nat)
    (res : jerryx_register_result)
    (hpre : ∀ e ∈ pre, e.name.isSome = true)
    (hres : res = (jerryx_set_properties api target (some (pre ++ ⟨none, v0⟩ :: t))).1) :
    jerryx_set_properties api target (some (pre ++ ⟨none, v0⟩ :: t)) =
      jerryx_set_properties api target (some (pre ++ ⟨none, v0⟩ :: t')) ∧
    jerryx_release_property_entry (some (pre ++ ⟨none, v0⟩ :: t)) res =
      jerryx_release_property_entry (some (pre ++ ⟨none, v0⟩ :: t')) res := by
  constructor
  · simp only [jerryx_set_properties]
    exact loop_tail_irrelevant api target v0 pre t t' 0
  · have hr : res.registered ≤ pre.length := by
      rw [hres]
      simpa [jerryx_set_properties] using loop_registered_le api target v0 pre t 0
    have hall : ∀ e ∈ pre.drop res.registered, e.name.isSome = true :=
      fun e he => hpre e (mem_of_drop pre res.registered e he)
    simp only [jerryx_release_property_entry, drop_append_le pre _ _ hr]
    rw [release_loop_append v0 (pre.drop res.registered) t res.registered hall,
        release_loop_append v0 (pre.drop res.registered) t' res.registered hall]

/-- Closed witness for Claim C8: a concrete failing run whose outputs are
unchanged when the garbage behind the sentinel changes. -/
theorem C8_never_reads_past_sentinel_witness :
    jerryx_set_properties apiW 0
        (some ([⟨some "a", 10⟩, ⟨some "bb", 5⟩] ++ ⟨none, 0⟩ :: [⟨some "x", 99⟩])) =
      jerryx_set_properties apiW 0
        (some ([⟨some "a", 10⟩, ⟨some "bb", 5⟩] ++ ⟨none, 0⟩ :: [])) ∧
    jerryx_release_property_entry
        (some ([⟨some "a", 10⟩, ⟨some "bb", 5⟩] ++ ⟨none, 0⟩ :: [⟨some "x", 99⟩])) ⟨7, 1⟩ =
      jerryx_release_property_entry
        (some ([⟨some "a", 10⟩, ⟨some "bb", 5⟩] ++ ⟨none, 0⟩ :: [])) ⟨7, 1⟩ :=
  C8_never_reads_past_sentinel apiW 0 [⟨some "a", 10⟩, ⟨some "bb", 5⟩]
    [⟨some "x", 99⟩] [] 0 ⟨7, 1⟩ (by decide) (by decide)

/-- The entry appended at the end of a block sits at index length-of-block. -/
theorem entryAt_append_length :
    ∀ (xs : List jerryx_property_entry) (e : jerryx_property_entry),
      entryAt (xs ++ [e]) xs.length = e := by
  intro xs
  induction xs with
  | nil => intro e; rfl
  | cons x xs' ih =>
    intro e
    simp only [List.cons_append, List.length_cons, entryAt_cons_succ]
    exact ih e

/-- Claim C9 (implicit): the loop's failure test is solely whether the
jerry_object_set result is a boolean handle: an entry whose set yields a
boolean handle — the boolean false one included, since jerry_value_is_true is
never consulted — is treated as successfully registered: its value handle is
freed exactly once, the registered count moves past it, and the loop
continues with the entries after it.  Only a non-boolean result stops the
batch. -/
theorem C9_boolean_false_continues (api : JerryApi) (target : Nat)
    (pre rest : List jerryx_property_entry) (n : String) (v : Nat)
    (hpre : ∀ e ∈ pre, e.name.isSome = true ∧ entryOk api target e = true)
    (hok : entryOk api target ⟨some n, v⟩ = true) :
    jerryx_set_properties api target (some (pre ++ ⟨some n, v⟩ :: rest)) =
      ((set_properties_loop api target rest (pre.length + 1)).1,
       tracesFrom api target 0 (pre ++ [⟨some n, v⟩]) ++
         (set_properties_loop api target rest (pre.length + 1)).2) ∧
    pre.length + 1 ≤
      (jerryx_set_properties api target (some (pre ++ ⟨some n, v⟩ :: rest))).1.registered ∧
    countOf (FreeEv.valueH pre.length v)
      (jerryx_set_properties api target (some (pre ++ ⟨some n, v⟩ :: rest))).2 = 1 := by
  have hpre' : ∀ e ∈ pre ++ [⟨some n, v⟩],
      e.name.isSome = true ∧ entryOk api target e = true := by
    intro e he
    rcases List.mem_append.mp he with he | he
    · exact hpre e he
    · rw [List.mem_singleton.mp he]
      exact ⟨rfl, hok⟩
  have heq : jerryx_set_properties api target (some (pre ++ ⟨some n, v⟩ :: rest)) =
      ((set_properties_loop api target rest (pre.length + 1)).1,
       tracesFrom api target 0 (pre ++ [⟨some n, v⟩]) ++
         (set_properties_loop api target rest (pre.length + 1)).2) := by
    have happ := loop_append_ok api target (pre ++ [⟨some n, v⟩]) rest 0 hpre'
    simp only [List.append_assoc, List.singleton_append, Nat.zero_add,
      List.length_append, List.length_singleton] at happ
    simpa [jerryx_set_properties] using happ
  refine ⟨heq, ?_, ?_⟩
  · rw [heq]
    exact loop_registered_ge api target rest (pre.length + 1)
  · rw [heq]
    have h1 : countOf (FreeEv.valueH pre.length v)
        (tracesFrom api target 0 (pre ++ [⟨some n, v⟩])) = 1 := by
      have hc := tracesFrom_countOf_valueH api target (pre ++ [⟨some n, v⟩]) 0
          pre.length (by simp)
      rw [entryAt_append_length] at hc
      simpa using hc
    have h2 : countOf (FreeEv.valueH pre.length v)
        (set_properties_loop api target rest (pre.length + 1)).2 = 0 := by
      apply countOf_eq_zero
      intro x hx heq2
      have hge := loop_trace_idx_ge api target rest (pre.length + 1) x hx
      rw [heq2] at hge
      simp only [evIdx] at hge
      omega
    simp [countOf_append, h1, h2]

/-- Closed witness for Claim C9: on apiW entry 0 of tableFalse sets to the
boolean false handle 2 (is_true 2 = false, is_boolean 2 = true), yet its
value handle 6 is freed exactly once and registration moves past it. -/
theorem C9_boolean_false_continues_witness :
    apiW.is_boolean 2 = true ∧ apiW.is_true 2 = false ∧
    entry_set_result apiW 0 ⟨some "a", 6⟩ = 2 ∧
    1 ≤ (jerryx_set_properties apiW 0
          (some ([] ++ ⟨some "a", 6⟩ :: [⟨some "bb", 10⟩, ⟨none, 0⟩]))).1.registered ∧
    countOf (FreeEv.valueH 0 6)
      (jerryx_set_properties apiW 0
        (some ([] ++ ⟨some "a", 6⟩ :: [⟨some "bb", 10⟩, ⟨none, 0⟩]))).2 = 1 := by
  have h := C9_boolean_false_continues apiW 0 [] [⟨some "bb", 10⟩, ⟨none, 0⟩] "a" 6
      (by decide) (by decide)
  exact ⟨by decide, by decide, by decide, h.2.1, h.2.2⟩

/-- Claim C10: deserializer_get_string_by_id is a deterministic, total lookup
over the generated range: for every id below the string table's length it
returns exactly the literal recorded in the build-time table, and two calls
with the same id return equal text.  (Spec-modelled: only the declaration in
deserializer.h is under src/.) -/
theorem C10_string_by_id_total_deterministic (pool : ConstantPool) (id : Nat)
    (h : id < pool.strings.length) :
    deserializer_get_string_by_id pool id = some (pool.strings.get ⟨id, h⟩) ∧
    deserializer_get_string_by_id pool id = deserializer_get_string_by_id pool id := by
  refine ⟨?_, rfl⟩
  simp [deserializer_get_string_by_id, List.getElem?_eq_getElem h]

/-- Closed witness for Claim C10 on a concrete two-literal pool. -/
theorem C10_string_by_id_total_deterministic_witness :
    deserializer_get_string_by_id ⟨["foo", "bar"], [1]⟩ 1 = some "bar" ∧
    deserializer_get_string_by_id ⟨["foo", "bar"], [1]⟩ 1 =
      deserializer_get_string_by_id ⟨["foo", "bar"], [1]⟩ 1 :=
  C10_string_by_id_total_deterministic ⟨["foo", "bar"], [1]⟩ 1 (by decide)
